import Mathlib

/-!
Shallow embedding of the content-comparison core of dupe-krill-windows
(src/src/hasher.rs and src/src/file.rs).

Modelling conventions:
* machine integers (`u64`, `usize`) are `Nat`; all the arithmetic in the
  source (offsets, sizes, `min`, `* 16`) stays far below `2^64`, and the
  source never relies on wrapping, so no modular reduction is needed;
* the blake3 digest is an abstract parameter `hashFn : List Nat → List Nat`
  applied to the exact byte sequence the source feeds to `hasher.update`;
* a file on disk (path + filesystem + `LazyFile` access, the `lazyfile.rs`
  module is not part of the sources) is a `FileModel`: either the list of
  its bytes, or a state in which every open/read fails with an I/O error;
* fallible Rust functions returning `Result<T, io::Error>` become
  `Except IOError T`;
* the I/O performed by a step is made observable as a `List ReadOp` log,
  recorded exactly at the call sites of `HashedRange::from_file`;
* the comparison loop of `Hasher::compare` does not structurally terminate
  for adversarial caches (a cached zero-size range makes the Rust loop spin
  forever), so it is embedded with explicit fuel; `none` as a result means
  the fuel ran out, i.e. the source loop has not yet terminated.
-/

set_option autoImplicit false

/-- Error kinds observable in the model: `fileErr` is any underlying
open/seek/read failure inside `HashedRange::from_file`; `cmpFail` is the
`io::Error::new(Other, "cmp i/o")` value created in `HashIter::next`. -/
inductive IOError where
  | fileErr
  | cmpFail
deriving DecidableEq, Repr

/-- Modelled from the spec: a path together with the filesystem and the
`LazyFile` deferred-open handle (`lazyfile.rs` is not among the sources).
`ok bytes` is a readable file with the given content; `ioError` is a file
for which every open or read fails. -/
inductive FileModel where
  | ok (bytes : List Nat)
  | ioError
deriving DecidableEq, Repr

/-- `HashedRange` from hasher.rs: a hashed chunk, `size: u64` and
`hash: [u8; 20]` (the digest is kept as a byte list). -/
structure HashedRange where
  size : Nat
  hash : List Nat
deriving DecidableEq, Repr

/-- Total-order comparison on `Nat`, the model of `u64: Ord`. -/
def natCmp (a b : Nat) : Ordering :=
  if a < b then .lt else if a = b then .eq else .gt

/-- Lexicographic comparison of byte lists, the model of `[u8; 20]: Ord`
(both digests always have length 20, so the length tie-breaks are inert). -/
def listCmp : List Nat → List Nat → Ordering
  | [], [] => .eq
  | [], _ :: _ => .lt
  | _ :: _, [] => .gt
  | x :: xs, y :: ys => (natCmp x y).then (listCmp xs ys)

/-- The `derive(PartialOrd, Ord)` order on `HashedRange`: fields in
declaration order, `size` first, then `hash`, lexicographically. -/
def HashedRange.cmp (a b : HashedRange) : Ordering :=
  (natCmp a.size b.size).then (listCmp a.hash b.hash)

/-- The read loop of `HashedRange::from_file`: repeatedly `fd.read` into the
remaining buffer, hashing `data[0..n]` after each read, stopping on a
zero-byte read (end of file) or once `to_read` reaches 0.  A read returns
`min to_read (bytes.length - pos)` bytes, the deterministic model of a
sequential read (interrupted reads are retried by the source, so they are
not observable).  The accumulator collects the bytes fed to the digest.
Each productive iteration consumes at least one byte of `to_read`, so
`fuel = to_read` always suffices; the fuel only makes recursion structural. -/
def readLoopF (bytes : List Nat) : Nat → Nat → Nat → List Nat → List Nat
  | 0, _, _, acc => acc
  | fuel + 1, pos, to_read, acc =>
    if to_read = 0 then acc
    else
      let n := min to_read (bytes.length - pos)
      if n = 0 then acc
      else readLoopF bytes fuel (pos + n) (to_read - n) (acc ++ (bytes.drop pos).take n)

/-- Bytes consumed (and hashed) by the read loop of
`HashedRange::from_file` when asked for `size` bytes at offset `start`. -/
def readLoop (bytes : List Nat) (start size : Nat) : List Nat :=
  readLoopF bytes size start size []

/-- `HashedRange::from_file`: open the file (lazily), seek to `start`, read
up to `size` bytes as in `readLoop`, and return a range whose `size` field
is the REQUESTED size and whose digest covers the bytes actually read. -/
def HashedRange.from_file (hashFn : List Nat → List Nat) (file : FileModel)
    (start size : Nat) : Except IOError HashedRange :=
  match file with
  | .ioError => .error .fileErr
  | .ok bytes => .ok { size := size, hash := hashFn (readLoop bytes start size) }

/-- `Hasher` from hasher.rs: the per-file cache, an ordered sequence of
`Option<HashedRange>` (`none` = permanently failed index). -/
structure Hasher where
  ranges : List (Option HashedRange)
deriving DecidableEq, Repr

/-- `Hasher::new`. -/
def Hasher.new : Hasher := ⟨[]⟩

/-- `Hasher::push`: a successful range is stored as `some`, an error is
logged and stored as a permanent `none` marker. -/
def Hasher.push (h : Hasher) (range : Except IOError HashedRange) : Hasher :=
  match range with
  | .ok r => ⟨h.ranges ++ [some r]⟩
  | .error _ => ⟨h.ranges ++ [none]⟩

/-- Which of the two sides of a comparison a read happened on. -/
inductive Side where
  | a
  | b
deriving DecidableEq, Repr

/-- One observable I/O action: a call to `HashedRange::from_file` on one
side, at a cache index, with the seek offset and requested byte count. -/
structure ReadOp where
  side : Side
  index : Nat
  start : Nat
  size : Nat
deriving DecidableEq, Repr

/-- `HashIter` from hasher.rs: the cursor of one pairwise comparison. -/
structure HashIter where
  index : Nat
  start_offset : Nat
  end_offset : Nat
  next_buffer_size : Nat
  a_file : FileModel
  b_file : FileModel
deriving DecidableEq, Repr

/-- `HashIter::new`: cursor at offset 0, initial buffer size 2048. -/
def HashIter.new (size : Nat) (a_file b_file : FileModel) : HashIter :=
  { index := 0, start_offset := 0, end_offset := size,
    next_buffer_size := 2048, a_file := a_file, b_file := b_file }

/-- The same cursor with the two files exchanged (used to relate the two
orientations of a comparison). -/
def HashIter.swapFiles (it : HashIter) : HashIter :=
  { it with a_file := it.b_file, b_file := it.a_file }

/-- Result of one `HashIter::next` call: the returned value, plus the
mutated cursor and caches (the Rust method mutates them through `&mut`
even on the error paths), plus the I/O performed. -/
structure StepResult where
  res : Except IOError (Option (HashedRange × HashedRange))
  iter : HashIter
  aH : Hasher
  bH : Hasher
  reads : List ReadOp
deriving Repr

/-- The final `match` of `HashIter::next` (hasher.rs lines 113-116): after
the pushes, both entries are read back; two computed ranges give `Ok`,
anything else the `cmp i/o` error.  (In the source this match only picks
the returned value; all state mutation happened before it.) -/
def pairLookup (x y : Option (Option HashedRange)) :
    Except IOError (Option (HashedRange × HashedRange)) :=
  match x, y with
  | some (some ra), some (some rb) => .ok (some (ra, rb))
  | _, _ => .error .cmpFail

/-- `HashIter::next`: compare (and compute if needed) the next two hashes.
Mirrors hasher.rs lines 74-117: end-of-scan check; permanent-failure check
(`some none` at the current index on either side) returning the
`cmp i/o` error before any I/O; chunk size from side `a`'s cached range,
else side `b`'s, else `min(remaining, next_buffer_size)`; lazily computing
and pushing whichever side has no entry at the index; advancing
`index`, `start_offset` and the `min(size * 16, 128 MiB)` schedule; and
finally re-reading both entries via `pairLookup`. -/
def HashIter.next (hashFn : List Nat → List Nat) (it : HashIter)
    (a_hash b_hash : Hasher) : StepResult :=
  if it.start_offset ≥ it.end_offset then
    ⟨.ok none, it, a_hash, b_hash, []⟩
  else
    let i := it.index
    let a := a_hash.ranges[i]?
    let b := b_hash.ranges[i]?
    let aFailed := match a with | some none => true | _ => false
    let bFailed := match b with | some none => true | _ => false
    if aFailed || bFailed then
      ⟨.error .cmpFail, it, a_hash, b_hash, []⟩
    else
      let size :=
        match a, b with
        | some (some ra), _ => ra.size
        | _, some (some rb) => rb.size
        | _, _ => min (it.end_offset - it.start_offset) it.next_buffer_size
      let aReads : List ReadOp :=
        if a.isNone then [⟨.a, i, it.start_offset, size⟩] else []
      let a_hash' :=
        if a.isNone then
          a_hash.push (HashedRange.from_file hashFn it.a_file it.start_offset size)
        else a_hash
      let bReads : List ReadOp :=
        if b.isNone then [⟨.b, i, it.start_offset, size⟩] else []
      let b_hash' :=
        if b.isNone then
          b_hash.push (HashedRange.from_file hashFn it.b_file it.start_offset size)
        else b_hash
      let it' : HashIter :=
        { it with
          index := i + 1,
          start_offset := it.start_offset + size,
          next_buffer_size := min (size * 16) (128 * 1024 * 1024) }
      ⟨pairLookup a_hash'.ranges[i]? b_hash'.ranges[i]?, it', a_hash', b_hash',
       aReads ++ bReads⟩

/-- Result of a whole `Hasher::compare` run: `none` means the loop has not
terminated within the fuel (the source loop diverges in exactly those
states); otherwise the `Result<Ordering, io::Error>` value; plus the final
caches and the I/O log. -/
structure CmpResult where
  res : Option (Except IOError Ordering)
  aH : Hasher
  bH : Hasher
  reads : List ReadOp
deriving Repr

/-- The `while let` loop of `Hasher::compare`: step with `HashIter::next`;
an error propagates, end of scan yields `Equal`, a compared pair returns
its `HashedRange` ordering when it is not `Equal` and otherwise loops. -/
def Hasher.compareAux (hashFn : List Nat → List Nat) :
    Nat → HashIter → Hasher → Hasher → CmpResult
  | 0, _, a, b => ⟨none, a, b, []⟩
  | fuel + 1, it, a, b =>
    let s := HashIter.next hashFn it a b
    match s.res with
    | .error e => ⟨some (.error e), s.aH, s.bH, s.reads⟩
    | .ok none => ⟨some (.ok .eq), s.aH, s.bH, s.reads⟩
    | .ok (some (ra, rb)) =>
      let ord := HashedRange.cmp ra rb
      if ord ≠ .eq then ⟨some (.ok ord), s.aH, s.bH, s.reads⟩
      else
        let rest := Hasher.compareAux hashFn fuel s.iter s.aH s.bH
        ⟨rest.res, rest.aH, rest.bH, s.reads ++ rest.reads⟩

/-- `Hasher::compare`: run the loop from a fresh `HashIter::new` cursor.
Every terminating run of the source loop takes at most
`size + |self.ranges| + |other.ranges| + 1` iterations (each iteration
either advances the offset by at least one byte or consumes a pre-existing
zero-size cache entry), so this fuel is not a restriction: `res = none`
exactly when the source loop never terminates. -/
def Hasher.compare (hashFn : List Nat → List Nat) (self other : Hasher)
    (size : Nat) (self_file other_file : FileModel) : CmpResult :=
  Hasher.compareAux hashFn (size + self.ranges.length + other.ranges.length + 1)
    (HashIter.new size self_file other_file) self other

/-- How a scan of all per-index pairs ends. -/
inductive ScanEnd where
  | reachedEnd
  | ioErr
  | fuelOut
deriving DecidableEq, Repr

/-- The full trace of pairs produced by iterating `HashIter::next`,
WITHOUT the early exit of `Hasher::compare`: collects every compared pair
until the scan reaches the end, errors, or runs out of fuel. -/
def Hasher.scanAux (hashFn : List Nat → List Nat) :
    Nat → HashIter → Hasher → Hasher → List (HashedRange × HashedRange) × ScanEnd
  | 0, _, _, _ => ([], .fuelOut)
  | fuel + 1, it, a, b =>
    let s := HashIter.next hashFn it a b
    match s.res with
    | .error _ => ([], .ioErr)
    | .ok none => ([], .reachedEnd)
    | .ok (some p) =>
      let rest := Hasher.scanAux hashFn fuel s.iter s.aH s.bH
      (p :: rest.1, rest.2)

/-- The scan trace of a whole `Hasher::compare` run (same cursor, same
fuel). -/
def Hasher.scan (hashFn : List Nat → List Nat) (self other : Hasher)
    (size : Nat) (self_file other_file : FileModel) :
    List (HashedRange × HashedRange) × ScanEnd :=
  Hasher.scanAux hashFn (size + self.ranges.length + other.ranges.length + 1)
    (HashIter.new size self_file other_file) self other

/-- The verdict the comparison loop ought to produce from a full scan
trace: the per-index ordering of the first non-equal pair; `Equal` when
the scan reached the end with every pair equal; the `cmp i/o` error when
it stopped on an error before any non-equal pair; `none` when the fuel ran
out first. -/
def scanVerdict (s : List (HashedRange × HashedRange) × ScanEnd) :
    Option (Except IOError Ordering) :=
  match s.1.find? (fun p => decide (HashedRange.cmp p.1 p.2 ≠ Ordering.eq)) with
  | some p => some (.ok (HashedRange.cmp p.1 p.2))
  | none =>
    match s.2 with
    | .reachedEnd => some (.ok .eq)
    | .ioErr => some (.error .cmpFail)
    | .fuelOut => none

/-- Mirror of a `HashIter::next` return value under exchanging the two
sides: a compared pair is swapped, end-of-scan and errors are unchanged. -/
def mirrorPairs (r : Except IOError (Option (HashedRange × HashedRange))) :
    Except IOError (Option (HashedRange × HashedRange)) :=
  r.map (Option.map (fun p => (p.2, p.1)))

/-- Mirror of a whole comparison result under exchanging the two sides:
an ordering is swapped, errors and divergence are unchanged. -/
def mirrorRes (r : Option (Except IOError Ordering)) :
    Option (Except IOError Ordering) :=
  r.map (Except.map Ordering.swap)

/-- Modelled from the spec: the metadata snapshot (`metadata.rs` is not
among the sources) — byte size plus the device ordering key, captured once
at construction. -/
structure Metadata where
  size : Nat
  dev : Nat
deriving DecidableEq, Repr

/-- Modelled from the spec: the derived metadata order, size then device. -/
def Metadata.cmp (m n : Metadata) : Ordering :=
  (natCmp m.size n.size).then (natCmp m.dev n.dev)

/-- `FileContent` from file.rs: metadata snapshot, the `RefCell<Hasher>`
cache contents, and the file the path denotes (the path plus filesystem
collapsed to a `FileModel`). -/
structure FileContent where
  metadata : Metadata
  hashes : Hasher
  file : FileModel
deriving DecidableEq, Repr

/-- Models taking `RefCell::borrow_mut` on both caches: borrowing the same
cell twice panics, and the two cells are the same cell exactly when the two
`FileContent` references are pointer-equal. -/
def borrowMutPair (ptrEq : Bool) (h1 h2 : Hasher) : Option (Hasher × Hasher) :=
  if ptrEq then none else some (h1, h2)

/-- Observable outcome of `FileContent::compare` / `Ord::cmp`. -/
inductive Outcome where
  | panicked
  | diverged
  | result (r : Except IOError Ordering)
deriving Repr

/-- Mirror of a `FileContent::compare` outcome under exchanging the two
arguments: a returned ordering is swapped; a panic, divergence, or I/O
error is unchanged. -/
def mirrorOutcome (o : Outcome) : Outcome :=
  match o with
  | .panicked => .panicked
  | .diverged => .diverged
  | .result r => .result (r.map Ordering.swap)

/-- `FileContent::compare` (file.rs lines 84-103).  `ptrEq` is the value of
`std::ptr::eq(self, other)` (instance identity is not representable inside
the values themselves).  Order of the source: pointer check, metadata
comparison, the two `borrow_mut` calls, then `Hasher::compare` on
`self.metadata.size`.  Returns the outcome, the two caches after the call,
and the I/O performed. -/
def FileContent.compare (hashFn : List Nat → List Nat) (ptrEq : Bool)
    (a b : FileContent) : Outcome × Hasher × Hasher × List ReadOp :=
  if ptrEq then (.result (.ok .eq), a.hashes, b.hashes, [])
  else
    let c := Metadata.cmp a.metadata b.metadata
    if c ≠ .eq then (.result (.ok c), a.hashes, b.hashes, [])
    else
      match borrowMutPair ptrEq a.hashes b.hashes with
      | none => (.panicked, a.hashes, b.hashes, [])
      | some (h1, h2) =>
        let r := Hasher.compare hashFn h1 h2 a.metadata.size a.file b.file
        match r.res with
        | none => (.diverged, r.aH, r.bH, r.reads)
        | some res => (.result res, r.aH, r.bH, r.reads)

/-- `Ord::cmp` for `FileContent`: `self.compare(other).unwrap_or(Greater)`.
`none` models a panic or divergence escaping `cmp` itself. -/
def FileContent.cmp (hashFn : List Nat → List Nat) (ptrEq : Bool)
    (a b : FileContent) : Option Ordering :=
  match (FileContent.compare hashFn ptrEq a b).1 with
  | .result (.ok o) => some o
  | .result (.error _) => some .gt
  | _ => none

/-- `FileSet` from file.rs: the group of paths confirmed identical (paths
are abstract tokens here). -/
structure FileSet where
  max_hardlinks : Nat
  paths : List Nat
deriving DecidableEq, Repr

/-- `FileSet::new`. -/
def FileSet.new (path : Nat) (max_hardlinks : Nat) : FileSet :=
  { max_hardlinks := max_hardlinks, paths := [path] }

/-- `FileSet::push`. -/
def FileSet.push (s : FileSet) (path : Nat) : FileSet :=
  { s with paths := s.paths ++ [path] }

/-- `FileSet::links`. -/
def FileSet.links (s : FileSet) : Nat :=
  max s.max_hardlinks s.paths.length

/-! ### Basic facts about the orderings -/

theorem natCmp_eq_eq_iff (a b : Nat) : natCmp a b = .eq ↔ a = b := by
  unfold natCmp
  split_ifs with h1 h2
  · exact iff_of_false (by decide) (by omega)
  · exact iff_of_true rfl h2
  · exact iff_of_false (by decide) (by omega)

theorem natCmp_swap (a b : Nat) : natCmp b a = (natCmp a b).swap := by
  unfold natCmp
  split_ifs <;> first | rfl | omega

theorem orderingThen_swap (o p : Ordering) : (o.then p).swap = o.swap.then p.swap := by
  cases o <;> rfl

theorem orderingThen_of_ne {o : Ordering} (p : Ordering) (h : o ≠ .eq) : o.then p = o := by
  cases o
  · rfl
  · exact absurd rfl h
  · rfl

theorem orderingSwap_ne_eq {o : Ordering} (h : o ≠ .eq) : o.swap ≠ .eq := by
  cases o
  · exact fun hc => by cases hc
  · exact absurd rfl h
  · exact fun hc => by cases hc

theorem listCmp_swap (xs : List Nat) : ∀ ys, listCmp ys xs = (listCmp xs ys).swap := by
  induction xs with
  | nil => intro ys; cases ys <;> rfl
  | cons x xs ih =>
    intro ys
    cases ys with
    | nil => rfl
    | cons y ys =>
      show (natCmp y x).then (listCmp ys xs) = ((natCmp x y).then (listCmp xs ys)).swap
      rw [orderingThen_swap, natCmp_swap, ih]

theorem hashedRangeCmp_swap (ra rb : HashedRange) :
    HashedRange.cmp rb ra = (HashedRange.cmp ra rb).swap := by
  unfold HashedRange.cmp
  rw [orderingThen_swap, natCmp_swap, listCmp_swap]

theorem hashedRangeCmp_of_size_ne {ra rb : HashedRange} (h : ra.size ≠ rb.size) :
    HashedRange.cmp ra rb = natCmp ra.size rb.size ∧ HashedRange.cmp ra rb ≠ .eq := by
  have hne : natCmp ra.size rb.size ≠ .eq := fun hc => h ((natCmp_eq_eq_iff _ _).mp hc)
  exact ⟨orderingThen_of_ne _ hne, by rw [HashedRange.cmp, orderingThen_of_ne _ hne]; exact hne⟩

theorem metadataCmp_swap (m n : Metadata) : Metadata.cmp n m = (Metadata.cmp m n).swap := by
  unfold Metadata.cmp
  rw [orderingThen_swap, natCmp_swap m.size n.size, natCmp_swap m.dev n.dev]

theorem metadataCmp_eq_iff (m n : Metadata) :
    Metadata.cmp m n = .eq ↔ m.size = n.size ∧ m.dev = n.dev := by
  unfold Metadata.cmp
  by_cases h : natCmp m.size n.size = .eq
  · rw [h]
    show natCmp m.dev n.dev = .eq ↔ _
    rw [natCmp_eq_eq_iff]
    have := (natCmp_eq_eq_iff m.size n.size).mp h
    exact ⟨fun hd => ⟨this, hd⟩, fun ⟨_, hd⟩ => hd⟩
  · rw [orderingThen_of_ne _ h]
    exact iff_of_false h (fun ⟨hs, _⟩ => h ((natCmp_eq_eq_iff _ _).mpr hs))

/-! ### The read loop on a truncated file -/

theorem readLoopF_of_short (bytes : List Nat) :
    ∀ (fuel pos to_read : Nat) (acc : List Nat),
      bytes.length < pos + to_read → to_read ≤ fuel →
      readLoopF bytes fuel pos to_read acc = acc ++ bytes.drop pos := by
  intro fuel
  induction fuel with
  | zero =>
    intro pos to_read acc hshort hle
    have ht : to_read = 0 := Nat.le_zero.mp hle
    subst ht
    have hd : bytes.drop pos = [] := List.drop_eq_nil_of_le (by omega)
    simp [readLoopF, hd]
  | succ fuel ih =>
    intro pos to_read acc hshort hle
    by_cases h0 : to_read = 0
    · subst h0
      have hd : bytes.drop pos = [] := List.drop_eq_nil_of_le (by omega)
      simp [readLoopF, hd]
    · by_cases hn : min to_read (bytes.length - pos) = 0
      · have hd : bytes.drop pos = [] := List.drop_eq_nil_of_le (by omega)
        simp [readLoopF, h0, hn, hd]
      · have hrec := ih (pos + min to_read (bytes.length - pos))
          (to_read - min to_read (bytes.length - pos))
          (acc ++ (bytes.drop pos).take (min to_read (bytes.length - pos)))
          (by omega) (by omega)
        simp only [readLoopF, h0, hn, ite_false]
        rw [hrec, List.append_assoc]
        congr 1
        rw [← List.drop_drop]
        exact List.take_append_drop _ _

/-- C10: when `HashedRange::from_file` asks for `size` bytes but the file
ends early (the bytes after offset `start` are fewer than `size`, so a read
returns 0 before `size` bytes are consumed), it succeeds, the returned
`size` field is the REQUESTED size, and the digest covers exactly the bytes
actually read (`bytes.drop start`, which is shorter than `size`) — a short
read caused by truncation records a full-size range over fewer bytes
instead of an error. -/
theorem c10_from_file_short_read (hashFn : List Nat → List Nat)
    (bytes : List Nat) (start size : Nat)
    (htrunc : bytes.length < start + size) (hpos : 0 < size) :
    HashedRange.from_file hashFn (.ok bytes) start size
      = .ok { size := size, hash := hashFn (bytes.drop start) }
    ∧ (bytes.drop start).length < size := by
  constructor
  · simp only [HashedRange.from_file, readLoop]
    rw [readLoopF_of_short bytes size start size [] htrunc (Nat.le_refl _), List.nil_append]
  · rw [List.length_drop]
    omega

/-- Witness for C10 at a concrete input: a 3-byte file, a 5-byte request at
offset 1; the range records size 5 but the digest is over the 2 bytes read. -/
theorem c10_witness :
    (([1, 2, 3] : List Nat).length < 1 + 5 ∧ 0 < 5) ∧
    (HashedRange.from_file (fun l => List.replicate 20 l.sum) (.ok [1, 2, 3]) 1 5
       = .ok { size := 5,
               hash := (fun l => List.replicate 20 l.sum) (([1, 2, 3] : List Nat).drop 1) }
     ∧ ((([1, 2, 3] : List Nat).drop 1).length < 5)) :=
  ⟨⟨by decide, by decide⟩,
   c10_from_file_short_read (fun l => List.replicate 20 l.sum) [1, 2, 3] 1 5 (by decide) (by decide)⟩

/-! ### Failure markers and fail-fast (C3) -/

/-- C3: an I/O error while computing the range for an index stores a
permanent `none` marker at that index (`Hasher::push` on an `Err` appends
`none`), and any later `HashIter::next` step that reaches an index holding
a `none` marker on either side returns the `cmp i/o` error immediately,
with the cursor and both caches unchanged and with no file open, seek or
read performed — the failed range is never recomputed. -/
theorem c3_failed_index_fails_fast (hashFn : List Nat → List Nat)
    (it : HashIter) (a b : Hasher)
    (hrun : it.start_offset < it.end_offset)
    (hfail : a.ranges[it.index]? = some none ∨ b.ranges[it.index]? = some none) :
    (∀ (h : Hasher) (e : IOError), (Hasher.push h (.error e)).ranges = h.ranges ++ [none]) ∧
    HashIter.next hashFn it a b = ⟨.error .cmpFail, it, a, b, []⟩ := by
  refine ⟨fun h e => rfl, ?_⟩
  unfold HashIter.next
  rw [if_neg (by omega)]
  rcases hfail with hf | hf <;> simp [hf]

/-- Witness for C3: a cache whose index 0 failed earlier makes the next
step fail fast without touching anything. -/
theorem c3_witness :
    ((0 : Nat) < 4 ∧ (⟨[none]⟩ : Hasher).ranges[0]? = some none) ∧
    ((∀ (h : Hasher) (e : IOError), (Hasher.push h (.error e)).ranges = h.ranges ++ [none]) ∧
     HashIter.next (fun _ => [0]) ⟨0, 0, 4, 2048, .ok [9, 9, 9, 9], .ok [9, 9, 9, 9]⟩
         ⟨[none]⟩ ⟨[]⟩
       = ⟨.error .cmpFail, ⟨0, 0, 4, 2048, .ok [9, 9, 9, 9], .ok [9, 9, 9, 9]⟩, ⟨[none]⟩, ⟨[]⟩, []⟩) :=
  ⟨⟨by decide, rfl⟩,
   c3_failed_index_fails_fast (fun _ => [0]) ⟨0, 0, 4, 2048, .ok [9, 9, 9, 9], .ok [9, 9, 9, 9]⟩
     ⟨[none]⟩ ⟨[]⟩ (by decide) (.inl rfl)⟩

/-! ### Error tie-break in the exposed order (C4) -/

/-- C4: whenever the fallible `FileContent::compare` returns an I/O error,
`Ord::cmp` (`compare(other).unwrap_or(Greater)`) yields `Greater` for that
pair instead of propagating the failure. -/
theorem c4_cmp_error_is_gt (hashFn : List Nat → List Nat) (ptrEq : Bool)
    (a b : FileContent) (e : IOError)
    (herr : (FileContent.compare hashFn ptrEq a b).1 = .result (.error e)) :
    FileContent.cmp hashFn ptrEq a b = some .gt := by
  unfold FileContent.cmp
  rw [herr]

/-- Witness for C4: an unreadable file with metadata equal to its peer
makes `compare` fail with the `cmp i/o` error, and `cmp` returns Greater. -/
theorem c4_witness :
    (FileContent.compare (fun _ => [0]) false ⟨⟨1, 0⟩, ⟨[]⟩, .ioError⟩ ⟨⟨1, 0⟩, ⟨[]⟩, .ok [7]⟩).1
      = .result (.error .cmpFail) ∧
    FileContent.cmp (fun _ => [0]) false ⟨⟨1, 0⟩, ⟨[]⟩, .ioError⟩ ⟨⟨1, 0⟩, ⟨[]⟩, .ok [7]⟩
      = some .gt :=
  ⟨rfl, c4_cmp_error_is_gt (fun _ => [0]) false ⟨⟨1, 0⟩, ⟨[]⟩, .ioError⟩ ⟨⟨1, 0⟩, ⟨[]⟩, .ok [7]⟩
     .cmpFail rfl⟩

/-! ### Metadata short-circuit (C6) -/

/-- C6: for two distinct `FileContent` values whose metadata snapshots
compare non-equal, `compare` returns that metadata ordering immediately:
no bytes are read from either file (the read log is empty) and both hash
caches are returned untouched. -/
theorem c6_metadata_short_circuit (hashFn : List Nat → List Nat)
    (a b : FileContent)
    (hne : Metadata.cmp a.metadata b.metadata ≠ .eq) :
    FileContent.compare hashFn false a b
      = (.result (.ok (Metadata.cmp a.metadata b.metadata)), a.hashes, b.hashes,
         ([] : List ReadOp)) := by
  unfold FileContent.compare
  simp [hne]

/-- Witness for C6: different sizes (1 vs 2) short-circuit to `Less` with
no reads and untouched caches. -/
theorem c6_witness :
    Metadata.cmp (⟨1, 0⟩ : Metadata) (⟨2, 0⟩ : Metadata) ≠ .eq ∧
    FileContent.compare (fun _ => [0]) false ⟨⟨1, 0⟩, ⟨[]⟩, .ok [5]⟩ ⟨⟨2, 0⟩, ⟨[]⟩, .ok [5, 6]⟩
      = (.result (.ok (Metadata.cmp (⟨1, 0⟩ : Metadata) (⟨2, 0⟩ : Metadata))),
         (⟨[]⟩ : Hasher), (⟨[]⟩ : Hasher), ([] : List ReadOp)) :=
  ⟨by decide,
   c6_metadata_short_circuit (fun _ => [0]) ⟨⟨1, 0⟩, ⟨[]⟩, .ok [5]⟩ ⟨⟨2, 0⟩, ⟨[]⟩, .ok [5, 6]⟩
     (by decide)⟩

/-! ### Identity short-circuit (C9) -/

/-- C9: comparing a `FileContent` instance with itself (pointer-equal
references) returns `Ok(Equal)` immediately: for every metadata value,
even one that would compare non-equal, the result is `Equal`, the caches
are untouched, no I/O happens, and in particular the `RefCell` double
mutable borrow (`panicked`) is never reached. -/
theorem c9_identity_short_circuit (hashFn : List Nat → List Nat) (a b : FileContent) :
    FileContent.compare hashFn true a b
      = (.result (.ok .eq), a.hashes, b.hashes, ([] : List ReadOp))
    ∧ (FileContent.compare hashFn true a b).1 ≠ Outcome.panicked :=
  ⟨rfl, fun h => nomatch h⟩

/-! ### Both sides cached with disagreeing sizes (C8) -/

/-- C8 counterexample: with both caches holding a computed range at index 0
whose sizes disagree (1 vs 2), `Hasher::compare` does NOT report any
internal consistency error — it proceeds, uses side a's size, and returns
the size ordering `Less` as an ordinary successful result. -/
theorem c8_counterexample :
    (Hasher.compare (fun _ => List.replicate 20 0)
        ⟨[some ⟨1, List.replicate 20 0⟩]⟩ ⟨[some ⟨2, List.replicate 20 0⟩]⟩
        5 (.ok []) (.ok [])).res = some (.ok .lt)
    ∧ (Hasher.compare (fun _ => List.replicate 20 0)
        ⟨[some ⟨1, List.replicate 20 0⟩]⟩ ⟨[some ⟨2, List.replicate 20 0⟩]⟩
        5 (.ok []) (.ok [])).reads = [] :=
  ⟨rfl, rfl⟩

/-- C8 amended: if at a reached index both caches already hold a computed
range and the two recorded sizes disagree, the code does not report an
error; `HashIter::next` silently uses the FIRST side's size, performs no
I/O and no cache update, returns the two cached ranges, and the comparison
loop returns the ordering of the two sizes as its overall result. -/
theorem c8_amended_uses_first_size (hashFn : List Nat → List Nat)
    (it : HashIter) (a b : Hasher) (ra rb : HashedRange)
    (hrun : it.start_offset < it.end_offset)
    (ha : a.ranges[it.index]? = some (some ra))
    (hb : b.ranges[it.index]? = some (some rb))
    (hne : ra.size ≠ rb.size) :
    HashIter.next hashFn it a b
      = ⟨.ok (some (ra, rb)),
         { it with index := it.index + 1,
                   start_offset := it.start_offset + ra.size,
                   next_buffer_size := min (ra.size * 16) (128 * 1024 * 1024) },
         a, b, []⟩
    ∧ ∀ fuel, (Hasher.compareAux hashFn (fuel + 1) it a b).res
        = some (.ok (natCmp ra.size rb.size)) := by
  have h1 : HashIter.next hashFn it a b
      = ⟨.ok (some (ra, rb)),
         { it with index := it.index + 1,
                   start_offset := it.start_offset + ra.size,
                   next_buffer_size := min (ra.size * 16) (128 * 1024 * 1024) },
         a, b, []⟩ := by
    unfold HashIter.next
    rw [if_neg (by omega)]
    simp [ha, hb, pairLookup]
  refine ⟨h1, fun fuel => ?_⟩
  have hcmp := hashedRangeCmp_of_size_ne hne
  simp only [Hasher.compareAux, h1]
  rw [if_pos hcmp.2]
  simp [hcmp.1]

/-- Witness for C8's amended statement at a concrete input: cached sizes
1 and 2 at index 0, total size 5. -/
theorem c8_witness :
    ((0 : Nat) < 5 ∧ (1 : Nat) ≠ 2) ∧
    (HashIter.next (fun _ => [0]) ⟨0, 0, 5, 2048, .ok [], .ok []⟩
         ⟨[some ⟨1, [3]⟩]⟩ ⟨[some ⟨2, [3]⟩]⟩
       = ⟨.ok (some (⟨1, [3]⟩, ⟨2, [3]⟩)),
          ⟨1, 1, 5, min (1 * 16) (128 * 1024 * 1024), .ok [], .ok []⟩,
          ⟨[some ⟨1, [3]⟩]⟩, ⟨[some ⟨2, [3]⟩]⟩, []⟩
     ∧ ∀ fuel, (Hasher.compareAux (fun _ => [0]) (fuel + 1) ⟨0, 0, 5, 2048, .ok [], .ok []⟩
           ⟨[some ⟨1, [3]⟩]⟩ ⟨[some ⟨2, [3]⟩]⟩).res
         = some (.ok (natCmp 1 2))) :=
  ⟨⟨by decide, by decide⟩,
   c8_amended_uses_first_size (fun _ => [0]) ⟨0, 0, 5, 2048, .ok [], .ok []⟩
     ⟨[some ⟨1, [3]⟩]⟩ ⟨[some ⟨2, [3]⟩]⟩ ⟨1, [3]⟩ ⟨2, [3]⟩
     (by decide) rfl rfl (by decide)⟩

/-! ### The chunk-size schedule (C2) -/

/-- C2: the chunk-size schedule of a comparison. First, `HashIter::new`
starts the schedule at 2048 bytes. Second, after any step that compared a
chunk, the next scheduled size is `min(chunk_size * 16, 128 MiB)` (the
chunk size being how far the offset advanced), so the schedule never
exceeds 128 MiB. Third, a newly computed chunk (no cache entry on either
side) uses exactly `min(remaining, next_buffer_size)` bytes, which is at
most 128 MiB (given the schedule invariant) and at most the remaining
unread bytes. -/
theorem c2_growth_schedule :
    (∀ (size : Nat) (fa fb : FileModel),
       (HashIter.new size fa fb).next_buffer_size = 2048) ∧
    (∀ (hashFn : List Nat → List Nat) (it : HashIter) (a b : Hasher),
       it.start_offset < it.end_offset →
       a.ranges[it.index]? ≠ some none →
       b.ranges[it.index]? ≠ some none →
       (HashIter.next hashFn it a b).iter.next_buffer_size
         = min (((HashIter.next hashFn it a b).iter.start_offset - it.start_offset) * 16)
             (128 * 1024 * 1024) ∧
       (HashIter.next hashFn it a b).iter.next_buffer_size ≤ 128 * 1024 * 1024) ∧
    (∀ (hashFn : List Nat → List Nat) (it : HashIter) (a b : Hasher),
       it.next_buffer_size ≤ 128 * 1024 * 1024 →
       it.start_offset < it.end_offset →
       a.ranges[it.index]? = none →
       b.ranges[it.index]? = none →
       (HashIter.next hashFn it a b).iter.start_offset - it.start_offset
           = min (it.end_offset - it.start_offset) it.next_buffer_size ∧
       (HashIter.next hashFn it a b).iter.start_offset - it.start_offset
           ≤ 128 * 1024 * 1024 ∧
       (HashIter.next hashFn it a b).iter.start_offset - it.start_offset
           ≤ it.end_offset - it.start_offset) := by
  refine ⟨fun _ _ _ => rfl, ?_, ?_⟩
  · intro hashFn it a b hrun hA hB
    have hend : ¬ it.start_offset ≥ it.end_offset := by omega
    rcases hA' : a.ranges[it.index]? with _ | ⟨_ | ra⟩ <;>
      rcases hB' : b.ranges[it.index]? with _ | ⟨_ | rb⟩
    all_goals first
      | exact absurd hA' hA
      | exact absurd hB' hB
      | (unfold HashIter.next
         rw [if_neg hend]
         simp only [hA', hB']
         simp only [Option.isNone_none, Option.isNone_some, Bool.or_self, Bool.or_false,
           Bool.false_or, Bool.false_eq_true, if_false, ite_false, if_true, ite_true]
         exact ⟨by simp, by simp⟩)
  · intro hashFn it a b hinv hrun hA hB
    have hend : ¬ it.start_offset ≥ it.end_offset := by omega
    unfold HashIter.next
    rw [if_neg hend]
    simp only [hA, hB]
    simp only [Option.isNone_none, Bool.or_self, Bool.false_eq_true, if_false, ite_false]
    exact ⟨by simp, by simp <;> omega, by simp <;> omega⟩

/-- Witness for C2 at a concrete input: fresh caches, total size 5000; the
first computed chunk is `min(5000, 2048) = 2048` bytes. -/
theorem c2_witness :
    ((2048 : Nat) ≤ 128 * 1024 * 1024 ∧ (0 : Nat) < 5000) ∧
    ((HashIter.next (fun _ => [0]) (HashIter.new 5000 (.ok []) (.ok []))
          ⟨[]⟩ ⟨[]⟩).iter.start_offset - (HashIter.new 5000 (.ok []) (.ok [])).start_offset
        = min ((HashIter.new 5000 (.ok []) (.ok [])).end_offset
                 - (HashIter.new 5000 (.ok []) (.ok [])).start_offset)
            (HashIter.new 5000 (.ok []) (.ok [])).next_buffer_size
     ∧ (HashIter.next (fun _ => [0]) (HashIter.new 5000 (.ok []) (.ok []))
          ⟨[]⟩ ⟨[]⟩).iter.start_offset - (HashIter.new 5000 (.ok []) (.ok [])).start_offset
        ≤ 128 * 1024 * 1024
     ∧ (HashIter.next (fun _ => [0]) (HashIter.new 5000 (.ok []) (.ok []))
          ⟨[]⟩ ⟨[]⟩).iter.start_offset - (HashIter.new 5000 (.ok []) (.ok [])).start_offset
        ≤ (HashIter.new 5000 (.ok []) (.ok [])).end_offset
            - (HashIter.new 5000 (.ok []) (.ok [])).start_offset) :=
  ⟨⟨by decide, by decide⟩,
   c2_growth_schedule.2.2 (fun _ => [0]) (HashIter.new 5000 (.ok []) (.ok [])) ⟨[]⟩ ⟨[]⟩
     (by decide) (by decide) rfl rfl⟩

/-! ### Cache frame properties (C7) -/

theorem push_ranges_exists (h : Hasher) (r : Except IOError HashedRange) :
    ∃ x, (Hasher.push h r).ranges = h.ranges ++ [x] := by
  cases r <;> exact ⟨_, rfl⟩

theorem getElem?_none_of_append {l t : List (Option HashedRange)} {i : Nat}
    (h : (l ++ t)[i]? = none) : l[i]? = none := by
  rw [List.getElem?_eq_none_iff] at h ⊢
  rw [List.length_append] at h
  omega

/-- One `HashIter::next` step only appends to each cache, and any read it
performs happens on a side whose cache has no entry at that index. -/
theorem next_frame (hashFn : List Nat → List Nat) (it : HashIter) (a b : Hasher) :
    (∃ ta, (HashIter.next hashFn it a b).aH.ranges = a.ranges ++ ta) ∧
    (∃ tb, (HashIter.next hashFn it a b).bH.ranges = b.ranges ++ tb) ∧
    (∀ op ∈ (HashIter.next hashFn it a b).reads,
       (op.side = Side.a → a.ranges[op.index]? = none) ∧
       (op.side = Side.b → b.ranges[op.index]? = none)) := by
  by_cases hend : it.start_offset ≥ it.end_offset
  · unfold HashIter.next
    rw [if_pos hend]
    exact ⟨⟨[], by simp⟩, ⟨[], by simp⟩, by simp⟩
  · have hfix : ∀ (s : StepResult),
        s = HashIter.next hashFn it a b →
        (∃ ta, s.aH.ranges = a.ranges ++ ta) ∧
        (∃ tb, s.bH.ranges = b.ranges ++ tb) ∧
        (∀ op ∈ s.reads,
          (op.side = Side.a → a.ranges[op.index]? = none) ∧
          (op.side = Side.b → b.ranges[op.index]? = none)) := by
      intro s hs
      rcases hA : a.ranges[it.index]? with _ | ⟨_ | ra⟩ <;>
        rcases hB : b.ranges[it.index]? with _ | ⟨_ | rb⟩ <;>
        (unfold HashIter.next at hs
         rw [if_neg hend] at hs
         simp only [hA, hB, Option.isNone_none, Option.isNone_some, Bool.or_self,
           Bool.or_false, Bool.false_or, Bool.or_true, Bool.true_or, Bool.false_eq_true,
           if_false, ite_false, if_true, ite_true] at hs)
      -- a missing, b missing: both sides push, two reads
      · subst hs
        refine ⟨?_, ?_, ?_⟩
        · obtain ⟨x, hx⟩ := push_ranges_exists a
            (HashedRange.from_file hashFn it.a_file it.start_offset
              (min (it.end_offset - it.start_offset) it.next_buffer_size))
          exact ⟨[x], hx⟩
        · obtain ⟨x, hx⟩ := push_ranges_exists b
            (HashedRange.from_file hashFn it.b_file it.start_offset
              (min (it.end_offset - it.start_offset) it.next_buffer_size))
          exact ⟨[x], hx⟩
        · intro op hop
          rcases List.mem_append.mp hop with h1 | h1 <;>
            rw [List.mem_singleton] at h1 <;> subst h1
          · exact ⟨fun _ => hA, fun h => nomatch h⟩
          · exact ⟨(fun h => nomatch h), fun _ => hB⟩
      -- a missing, b failed: fail-fast, nothing happens
      · subst hs
        exact ⟨⟨[], by simp⟩, ⟨[], by simp⟩, by simp⟩
      -- a missing, b cached: a pushes, one read on side a
      · subst hs
        refine ⟨?_, ⟨[], by simp⟩, ?_⟩
        · obtain ⟨x, hx⟩ := push_ranges_exists a
            (HashedRange.from_file hashFn it.a_file it.start_offset rb.size)
          exact ⟨[x], hx⟩
        · intro op hop
          rcases List.mem_append.mp hop with h1 | h1 <;>
            first
              | (rw [List.mem_singleton] at h1
                 subst h1
                 exact ⟨fun _ => hA, fun h => nomatch h⟩)
              | exact absurd h1 (List.not_mem_nil op)
      -- a failed (three shapes of b): fail-fast
      · subst hs
        exact ⟨⟨[], by simp⟩, ⟨[], by simp⟩, by simp⟩
      · subst hs
        exact ⟨⟨[], by simp⟩, ⟨[], by simp⟩, by simp⟩
      · subst hs
        exact ⟨⟨[], by simp⟩, ⟨[], by simp⟩, by simp⟩
      -- a cached, b missing: b pushes, one read on side b
      · subst hs
        refine ⟨⟨[], by simp⟩, ?_, ?_⟩
        · obtain ⟨x, hx⟩ := push_ranges_exists b
            (HashedRange.from_file hashFn it.b_file it.start_offset ra.size)
          exact ⟨[x], hx⟩
        · intro op hop
          rcases List.mem_append.mp hop with h1 | h1 <;>
            first
              | (rw [List.mem_singleton] at h1
                 subst h1
                 exact ⟨(fun h => nomatch h), fun _ => hB⟩)
              | exact absurd h1 (List.not_mem_nil op)
      -- a cached, b failed: fail-fast
      · subst hs
        exact ⟨⟨[], by simp⟩, ⟨[], by simp⟩, by simp⟩
      -- both cached: nothing pushed, no reads
      · subst hs
        exact ⟨⟨[], by simp⟩, ⟨[], by simp⟩, by simp⟩
    exact hfix _ rfl

/-- The whole comparison loop only appends to each cache, and any read it
performs happens on a side whose cache had no entry at that index at the
start of the loop. -/
theorem compareAux_frame (hashFn : List Nat → List Nat) :
    ∀ (fuel : Nat) (it : HashIter) (a b : Hasher),
      (∃ ta, (Hasher.compareAux hashFn fuel it a b).aH.ranges = a.ranges ++ ta) ∧
      (∃ tb, (Hasher.compareAux hashFn fuel it a b).bH.ranges = b.ranges ++ tb) ∧
      (∀ op ∈ (Hasher.compareAux hashFn fuel it a b).reads,
         (op.side = Side.a → a.ranges[op.index]? = none) ∧
         (op.side = Side.b → b.ranges[op.index]? = none)) := by
  intro fuel
  induction fuel with
  | zero =>
    intro it a b
    exact ⟨⟨[], by simp [Hasher.compareAux]⟩, ⟨[], by simp [Hasher.compareAux]⟩,
           by simp [Hasher.compareAux]⟩
  | succ fuel ih =>
    intro it a b
    obtain ⟨⟨ta, hta⟩, ⟨tb, htb⟩, hreads⟩ := next_frame hashFn it a b
    simp only [Hasher.compareAux]
    cases hres : (HashIter.next hashFn it a b).res with
    | error e =>
      simp only [hres]
      exact ⟨⟨ta, hta⟩, ⟨tb, htb⟩, hreads⟩
    | ok o =>
      cases o with
      | none =>
        simp only [hres]
        exact ⟨⟨ta, hta⟩, ⟨tb, htb⟩, hreads⟩
      | some p =>
        obtain ⟨ra, rb⟩ := p
        simp only [hres]
        by_cases heq : HashedRange.cmp ra rb = .eq
        · rw [heq, if_neg (by simp)]
          obtain ⟨⟨ta', hta'⟩, ⟨tb', htb'⟩, hreads'⟩ :=
            ih (HashIter.next hashFn it a b).iter
               (HashIter.next hashFn it a b).aH (HashIter.next hashFn it a b).bH
          refine ⟨⟨ta ++ ta', ?_⟩, ⟨tb ++ tb', ?_⟩, ?_⟩
          · show (Hasher.compareAux hashFn fuel _ _ _).aH.ranges = _
            rw [hta', hta, List.append_assoc]
          · show (Hasher.compareAux hashFn fuel _ _ _).bH.ranges = _
            rw [htb', htb, List.append_assoc]
          · intro op hop
            rcases List.mem_append.mp hop with h1 | h1
            · exact hreads op h1
            · obtain ⟨hsa, hsb⟩ := hreads' op h1
              refine ⟨fun hside => ?_, fun hside => ?_⟩
              · have h2 := hsa hside
                rw [hta] at h2
                exact getElem?_none_of_append h2
              · have h2 := hsb hside
                rw [htb] at h2
                exact getElem?_none_of_append h2
        · rw [if_pos heq]
          exact ⟨⟨ta, hta⟩, ⟨tb, htb⟩, hreads⟩

/-- C7: during `Hasher::compare`, a range is computed (and a file read
performed) on a side only when that side's cache has no entry at the
index being read; existing cache entries are never modified — the final
caches extend the initial ones by appending only.  Hence a byte range
already cached is never re-hashed, and a second comparison of the same
`Hasher` against a different peer reuses every range cached earlier. -/
theorem c7_cache_append_only_and_reuse (hashFn : List Nat → List Nat)
    (a b : Hasher) (size : Nat) (fa fb : FileModel) :
    (∃ ta, (Hasher.compare hashFn a b size fa fb).aH.ranges = a.ranges ++ ta) ∧
    (∃ tb, (Hasher.compare hashFn a b size fa fb).bH.ranges = b.ranges ++ tb) ∧
    (∀ op ∈ (Hasher.compare hashFn a b size fa fb).reads,
       (op.side = Side.a → a.ranges[op.index]? = none) ∧
       (op.side = Side.b → b.ranges[op.index]? = none)) :=
  compareAux_frame hashFn _ _ a b

/-- Witness for C7: side a enters with index 0 cached, so the only read at
index 0 is on side b, whose cache was empty there. -/
theorem c7_witness :
    (⟨Side.b, 0, 0, 1⟩ : ReadOp) ∈
      (Hasher.compare (fun _ => [0]) ⟨[some ⟨1, [0]⟩]⟩ ⟨[]⟩ 2
        (.ok [5, 6]) (.ok [5, 6])).reads
    ∧ (⟨[]⟩ : Hasher).ranges[(0 : Nat)]? = none :=
  ⟨by decide,
   ((c7_cache_append_only_and_reuse (fun _ => [0]) ⟨[some ⟨1, [0]⟩]⟩ ⟨[]⟩ 2
       (.ok [5, 6]) (.ok [5, 6])).2.2 ⟨Side.b, 0, 0, 1⟩ (by decide)).2 rfl⟩

/-! ### The loop returns the first per-index difference (C1) -/

theorem pairLookup_error {x y : Option (Option HashedRange)} {e : IOError}
    (h : pairLookup x y = .error e) : e = .cmpFail := by
  rcases x with _ | ⟨_ | ra⟩ <;> rcases y with _ | ⟨_ | rb⟩ <;>
    simp only [pairLookup] at h <;>
    first
      | (injection h with h'; exact h'.symm)
      | injection h

theorem next_res_error (hashFn : List Nat → List Nat) (it : HashIter) (a b : Hasher)
    {e : IOError} (h : (HashIter.next hashFn it a b).res = .error e) : e = .cmpFail := by
  unfold HashIter.next at h
  by_cases hend : it.start_offset ≥ it.end_offset
  · rw [if_pos hend] at h
    exact absurd h (by simp)
  · rw [if_neg hend] at h
    rcases hA : a.ranges[it.index]? with _ | ⟨_ | ra⟩ <;>
      rcases hB : b.ranges[it.index]? with _ | ⟨_ | rb⟩ <;>
      simp only [hA, hB, Option.isNone_none, Option.isNone_some, Bool.or_self,
        Bool.or_false, Bool.false_or, Bool.or_true, Bool.true_or, Bool.false_eq_true,
        if_false, ite_false, if_true, ite_true] at h <;>
      first
        | exact pairLookup_error h
        | (injection h with h'; exact h'.symm)

theorem scanVerdict_cons_eq (p : HashedRange × HashedRange)
    (l : List (HashedRange × HashedRange)) (e : ScanEnd)
    (h : HashedRange.cmp p.1 p.2 = .eq) :
    scanVerdict (p :: l, e) = scanVerdict (l, e) := by
  unfold scanVerdict
  simp [List.find?_cons, h]

theorem scanVerdict_cons_ne (p : HashedRange × HashedRange)
    (l : List (HashedRange × HashedRange)) (e : ScanEnd)
    (h : HashedRange.cmp p.1 p.2 ≠ .eq) :
    scanVerdict (p :: l, e) = some (.ok (HashedRange.cmp p.1 p.2)) := by
  unfold scanVerdict
  simp [List.find?_cons, h]

/-- The early-exit comparison loop equals the verdict computed from the
full scan trace. -/
theorem compareAux_scanAux (hashFn : List Nat → List Nat) :
    ∀ (fuel : Nat) (it : HashIter) (a b : Hasher),
      (Hasher.compareAux hashFn fuel it a b).res
        = scanVerdict (Hasher.scanAux hashFn fuel it a b) := by
  intro fuel
  induction fuel with
  | zero => intro it a b; rfl
  | succ fuel ih =>
    intro it a b
    simp only [Hasher.compareAux, Hasher.scanAux]
    cases hres : (HashIter.next hashFn it a b).res with
    | error e =>
      obtain rfl := next_res_error hashFn it a b hres
      simp [hres, scanVerdict]
    | ok o =>
      cases o with
      | none => simp [hres, scanVerdict]
      | some p =>
        obtain ⟨ra, rb⟩ := p
        simp only [hres]
        by_cases heq : HashedRange.cmp ra rb = .eq
        · rw [heq, if_neg (by simp)]
          rw [scanVerdict_cons_eq (ra, rb) _ _ heq]
          exact ih _ _ _
        · rw [if_pos heq, scanVerdict_cons_ne (ra, rb) _ _ heq]

/-- C1: `Hasher::compare` is the verdict of the per-index scan: every
compared pair is ordered by size first, then by the 20-byte digest
lexicographically (`HashedRange.cmp`); the result is the per-index
ordering of the FIRST non-equal pair, and it is `Equal` exactly when the
scan reached `total_size` (every byte hashed and matched) with every pair
equal. -/
theorem c1_compare_first_difference (hashFn : List Nat → List Nat)
    (a b : Hasher) (size : Nat) (fa fb : FileModel) :
    ((Hasher.compare hashFn a b size fa fb).res
       = scanVerdict (Hasher.scan hashFn a b size fa fb)) ∧
    ((Hasher.compare hashFn a b size fa fb).res = some (.ok .eq) ↔
       (Hasher.scan hashFn a b size fa fb).1.find?
           (fun q => decide (HashedRange.cmp q.1 q.2 ≠ Ordering.eq)) = none
       ∧ (Hasher.scan hashFn a b size fa fb).2 = ScanEnd.reachedEnd) ∧
    (∀ p, (Hasher.scan hashFn a b size fa fb).1.find?
           (fun q => decide (HashedRange.cmp q.1 q.2 ≠ Ordering.eq)) = some p →
       (Hasher.compare hashFn a b size fa fb).res
         = some (.ok (HashedRange.cmp p.1 p.2))) := by
  have hmain : (Hasher.compare hashFn a b size fa fb).res
      = scanVerdict (Hasher.scan hashFn a b size fa fb) :=
    compareAux_scanAux hashFn _ _ a b
  refine ⟨hmain, ?_, ?_⟩
  · rw [hmain]
    unfold scanVerdict
    cases hfind : (Hasher.scan hashFn a b size fa fb).1.find?
        (fun q => decide (HashedRange.cmp q.1 q.2 ≠ Ordering.eq)) with
    | some p =>
      have hp : HashedRange.cmp p.1 p.2 ≠ Ordering.eq := by
        have h2 := List.find?_some hfind
        simpa using h2
      simp [hfind, hp]
    | none =>
      cases hend : (Hasher.scan hashFn a b size fa fb).2 <;> simp [hfind, hend]
  · intro p hfind
    rw [hmain]
    unfold scanVerdict
    simp only [ne_eq, decide_not] at hfind ⊢
    rw [hfind]

/-- Witness for C1: two 3-byte files differing in the last byte; the scan
has exactly one pair, it is non-equal, and `compare` returns its ordering. -/
theorem c1_witness :
    (Hasher.scan (fun l => [l.sum]) ⟨[]⟩ ⟨[]⟩ 3 (.ok [1, 2, 3]) (.ok [1, 2, 4])).1.find?
        (fun q => decide (HashedRange.cmp q.1 q.2 ≠ Ordering.eq))
      = some (⟨3, [6]⟩, ⟨3, [7]⟩)
    ∧ (Hasher.compare (fun l => [l.sum]) ⟨[]⟩ ⟨[]⟩ 3 (.ok [1, 2, 3]) (.ok [1, 2, 4])).res
      = some (.ok (HashedRange.cmp ⟨3, [6]⟩ ⟨3, [7]⟩)) :=
  ⟨by decide,
   (c1_compare_first_difference (fun l => [l.sum]) ⟨[]⟩ ⟨[]⟩ 3
      (.ok [1, 2, 3]) (.ok [1, 2, 4])).2.2 (⟨3, [6]⟩, ⟨3, [7]⟩) (by decide)⟩

/-! ### Antisymmetry and the error tie-break (C5) -/

theorem pairLookup_mirror (x y : Option (Option HashedRange)) :
    pairLookup y x = mirrorPairs (pairLookup x y) := by
  rcases x with _ | ⟨_ | ra⟩ <;> rcases y with _ | ⟨_ | rb⟩ <;> rfl

/-- One step of the two orientations of the same comparison: either both
sides hold a cached range at the index with disagreeing sizes (then the
two orientations return the two cached pairs, swapped), or the two steps
are exact mirrors: swapped result, swapped cursor files, exchanged
caches. -/
theorem next_mirror (hashFn : List Nat → List Nat) (it : HashIter) (a b : Hasher) :
    (∃ ra rb,
       a.ranges[it.index]? = some (some ra) ∧
       b.ranges[it.index]? = some (some rb) ∧
       ra.size ≠ rb.size ∧
       (HashIter.next hashFn it a b).res = .ok (some (ra, rb)) ∧
       (HashIter.next hashFn it.swapFiles b a).res = .ok (some (rb, ra)))
  ∨ ((HashIter.next hashFn it.swapFiles b a).res
       = mirrorPairs (HashIter.next hashFn it a b).res ∧
     (HashIter.next hashFn it.swapFiles b a).iter
       = (HashIter.next hashFn it a b).iter.swapFiles ∧
     (HashIter.next hashFn it.swapFiles b a).aH = (HashIter.next hashFn it a b).bH ∧
     (HashIter.next hashFn it.swapFiles b a).bH = (HashIter.next hashFn it a b).aH) := by
  by_cases hend : it.start_offset ≥ it.end_offset
  · right
    unfold HashIter.next
    simp only [HashIter.swapFiles]
    rw [if_pos hend, if_pos hend]
    exact ⟨rfl, rfl, rfl, rfl⟩
  · rcases hA : a.ranges[it.index]? with _ | ⟨_ | ra⟩ <;>
      rcases hB : b.ranges[it.index]? with _ | ⟨_ | rb⟩ <;>
      (unfold HashIter.next
       simp only [HashIter.swapFiles]
       rw [if_neg hend, if_neg hend]
       simp only [hA, hB, Option.isNone_none, Option.isNone_some, Bool.or_self,
         Bool.or_false, Bool.false_or, Bool.or_true, Bool.true_or, Bool.false_eq_true,
         if_false, ite_false, if_true, ite_true])
    · exact Or.inr (by refine ⟨?_, ?_, ?_, ?_⟩ <;> first | exact pairLookup_mirror _ _ | trivial)
    · exact Or.inr (by refine ⟨?_, ?_, ?_, ?_⟩ <;> trivial)
    · exact Or.inr (by refine ⟨?_, ?_, ?_, ?_⟩ <;> first | exact pairLookup_mirror _ _ | trivial)
    · exact Or.inr (by refine ⟨?_, ?_, ?_, ?_⟩ <;> trivial)
    · exact Or.inr (by refine ⟨?_, ?_, ?_, ?_⟩ <;> trivial)
    · exact Or.inr (by refine ⟨?_, ?_, ?_, ?_⟩ <;> trivial)
    · exact Or.inr (by refine ⟨?_, ?_, ?_, ?_⟩ <;> first | exact pairLookup_mirror _ _ | trivial)
    · exact Or.inr (by refine ⟨?_, ?_, ?_, ?_⟩ <;> trivial)
    · by_cases hsz : ra.size = rb.size
      · exact Or.inr (by refine ⟨?_, ?_, ?_, ?_⟩ <;> first | trivial | rw [hsz])
      · exact Or.inl (by refine ⟨ra, rb, ?_, ?_, hsz, ?_, ?_⟩ <;> trivial)

/-- The whole comparison loop commutes with exchanging the two sides: the
result of the swapped orientation is the mirror of the original result
(orderings swapped, errors and divergence unchanged). -/
theorem compareAux_mirror (hashFn : List Nat → List Nat) :
    ∀ (fuel : Nat) (it : HashIter) (a b : Hasher),
      (Hasher.compareAux hashFn fuel it.swapFiles b a).res
        = mirrorRes (Hasher.compareAux hashFn fuel it a b).res := by
  intro fuel
  induction fuel with
  | zero => intro it a b; rfl
  | succ fuel ih =>
    intro it a b
    rcases next_mirror hashFn it a b with ⟨ra, rb, hA, hB, hsz, hf, hg⟩ |
      ⟨hres, hiter, haH, hbH⟩
    · have hcmp := hashedRangeCmp_of_size_ne hsz
      have hcmp' : HashedRange.cmp rb ra ≠ .eq := by
        rw [hashedRangeCmp_swap]
        exact orderingSwap_ne_eq hcmp.2
      simp only [Hasher.compareAux, hf, hg]
      rw [if_pos hcmp', if_pos hcmp.2]
      simp only [mirrorRes, Option.map_some', Except.map]
      rw [hashedRangeCmp_swap]
    · simp only [Hasher.compareAux]
      rw [hres, hiter, haH, hbH]
      cases hr : (HashIter.next hashFn it a b).res with
      | error e => simp [hr, mirrorPairs, mirrorRes, Except.map]
      | ok o =>
        cases o with
        | none => simp [hr, mirrorPairs, mirrorRes, Except.map, Ordering.swap]
        | some p =>
          obtain ⟨ra, rb⟩ := p
          simp only [mirrorPairs, Except.map, Option.map_some']
          by_cases heq : HashedRange.cmp ra rb = .eq
          · have heq' : HashedRange.cmp rb ra = .eq := by
              rw [hashedRangeCmp_swap, heq]
              rfl
            rw [heq, heq']
            rw [if_neg (by simp), if_neg (by simp)]
            exact ih _ _ _
          · have heq' : HashedRange.cmp rb ra ≠ .eq := by
              rw [hashedRangeCmp_swap]
              exact orderingSwap_ne_eq heq
            rw [if_pos heq', if_pos heq]
            simp only [mirrorRes, Option.map_some', Except.map]
            rw [hashedRangeCmp_swap]

/-- `Hasher::compare` commutes with exchanging the two sides. -/
theorem compare_mirror (hashFn : List Nat → List Nat) (a b : Hasher) (size : Nat)
    (fa fb : FileModel) :
    (Hasher.compare hashFn b a size fb fa).res
      = mirrorRes (Hasher.compare hashFn a b size fa fb).res := by
  unfold Hasher.compare
  have hfuel : size + b.ranges.length + a.ranges.length + 1
      = size + a.ranges.length + b.ranges.length + 1 := by omega
  rw [hfuel]
  exact compareAux_mirror hashFn _ (HashIter.new size fa fb) a b

/-- C5 counterexample: two distinct `FileContent` values with equal
metadata, one of them unreadable.  The content comparison fails in both
directions, `Ord::cmp` returns Greater in BOTH directions, and therefore
`sign(compare(A,B)) = -sign(compare(B,A))` fails for this pair: the error
tie-break does not keep the order antisymmetric. -/
theorem c5_counterexample :
    FileContent.cmp (fun _ => [0]) false ⟨⟨1, 0⟩, ⟨[]⟩, .ioError⟩ ⟨⟨1, 0⟩, ⟨[]⟩, .ok [7]⟩
      = some .gt
    ∧ FileContent.cmp (fun _ => [0]) false ⟨⟨1, 0⟩, ⟨[]⟩, .ok [7]⟩ ⟨⟨1, 0⟩, ⟨[]⟩, .ioError⟩
      = some .gt
    ∧ ¬ ((FileContent.cmp (fun _ => [0]) false ⟨⟨1, 0⟩, ⟨[]⟩, .ioError⟩
            ⟨⟨1, 0⟩, ⟨[]⟩, .ok [7]⟩).map Ordering.swap
         = FileContent.cmp (fun _ => [0]) false ⟨⟨1, 0⟩, ⟨[]⟩, .ok [7]⟩
            ⟨⟨1, 0⟩, ⟨[]⟩, .ioError⟩) :=
  ⟨rfl, rfl, by decide⟩

/-- Exchanging the two arguments of `FileContent::compare` mirrors the
outcome: a returned ordering is swapped, while a panic, divergence, or
I/O error happens in BOTH orientations, unchanged. -/
theorem fileContent_compare_mirror (hashFn : List Nat → List Nat) (ptrEq : Bool)
    (A B : FileContent) :
    (FileContent.compare hashFn ptrEq B A).1
      = mirrorOutcome (FileContent.compare hashFn ptrEq A B).1 := by
  cases ptrEq with
  | true => rfl
  | false =>
    by_cases hmeta : Metadata.cmp A.metadata B.metadata = .eq
    · have hmeta' : Metadata.cmp B.metadata A.metadata = .eq := by
        rw [metadataCmp_swap, hmeta]
        rfl
      have hsize : A.metadata.size = B.metadata.size :=
        ((metadataCmp_eq_iff _ _).mp hmeta).1
      have hmirror := compare_mirror hashFn A.hashes B.hashes A.metadata.size A.file B.file
      unfold FileContent.compare borrowMutPair
      rw [← hsize]
      simp only [hmeta, hmeta', Bool.false_eq_true, if_false, ite_false, ne_eq,
        not_true_eq_false, if_true, ite_true, not_false_eq_true]
      rw [hmirror]
      cases hr : (Hasher.compare hashFn A.hashes B.hashes A.metadata.size A.file B.file).res
        with
      | none => rfl
      | some r =>
        cases r with
        | ok o => simp [mirrorRes, mirrorOutcome, Except.map, Option.map_some']
        | error e => simp [mirrorRes, mirrorOutcome, Except.map, Option.map_some']
    · have hmeta' : Metadata.cmp B.metadata A.metadata ≠ .eq := by
        rw [metadataCmp_swap]
        exact orderingSwap_ne_eq hmeta
      unfold FileContent.compare
      simp only [Bool.false_eq_true, if_false, ite_false]
      rw [if_pos hmeta, if_pos hmeta']
      rw [metadataCmp_swap]
      simp [mirrorOutcome, Except.map]

/-- C5 amended: antisymmetry holds for exactly the pairs whose content
comparison succeeds, and fails on the error pairs.  Whenever
`FileContent::compare` succeeds with ordering `o`, the swapped comparison
succeeds with `o.swap` and `Ord::cmp` returns `o` and `o.swap` — that is,
`sign(compare(A,B)) = -sign(compare(B,A))`.  Whenever it fails with an
I/O error, the swapped comparison fails with the same error and
`Ord::cmp` returns Greater in BOTH directions, violating antisymmetry. -/
theorem c5_amended_antisymmetry (hashFn : List Nat → List Nat) (ptrEq : Bool)
    (A B : FileContent) :
    (∀ o : Ordering, (FileContent.compare hashFn ptrEq A B).1 = .result (.ok o) →
       (FileContent.compare hashFn ptrEq B A).1 = .result (.ok o.swap) ∧
       FileContent.cmp hashFn ptrEq A B = some o ∧
       FileContent.cmp hashFn ptrEq B A = some o.swap)
  ∧ (∀ e : IOError, (FileContent.compare hashFn ptrEq A B).1 = .result (.error e) →
       (FileContent.compare hashFn ptrEq B A).1 = .result (.error e) ∧
       FileContent.cmp hashFn ptrEq A B = some .gt ∧
       FileContent.cmp hashFn ptrEq B A = some .gt) := by
  have hm := fileContent_compare_mirror hashFn ptrEq A B
  constructor
  · intro o ho
    rw [ho] at hm
    have hm' : (FileContent.compare hashFn ptrEq B A).1 = .result (.ok o.swap) := hm
    refine ⟨hm', ?_, ?_⟩
    · unfold FileContent.cmp
      rw [ho]
    · unfold FileContent.cmp
      rw [hm']
  · intro e he
    rw [he] at hm
    have hm' : (FileContent.compare hashFn ptrEq B A).1 = .result (.error e) := hm
    refine ⟨hm', ?_, ?_⟩
    · unfold FileContent.cmp
      rw [he]
    · unfold FileContent.cmp
      rw [hm']

/-- Witness for C5's amended statement: a success pair (equal metadata,
1-byte files 7 vs 8, ordering Less / Greater under swap) and an error
pair (equal metadata, one unreadable file, Greater in both directions). -/
theorem c5_witness :
    ((FileContent.compare (fun l => l) false ⟨⟨1, 0⟩, ⟨[]⟩, .ok [7]⟩
          ⟨⟨1, 0⟩, ⟨[]⟩, .ok [8]⟩).1 = .result (.ok .lt) ∧
     ((FileContent.compare (fun l => l) false ⟨⟨1, 0⟩, ⟨[]⟩, .ok [8]⟩
           ⟨⟨1, 0⟩, ⟨[]⟩, .ok [7]⟩).1 = .result (.ok Ordering.lt.swap) ∧
      FileContent.cmp (fun l => l) false ⟨⟨1, 0⟩, ⟨[]⟩, .ok [7]⟩
          ⟨⟨1, 0⟩, ⟨[]⟩, .ok [8]⟩ = some .lt ∧
      FileContent.cmp (fun l => l) false ⟨⟨1, 0⟩, ⟨[]⟩, .ok [8]⟩
          ⟨⟨1, 0⟩, ⟨[]⟩, .ok [7]⟩ = some Ordering.lt.swap)) ∧
    ((FileContent.compare (fun l => l) false ⟨⟨1, 0⟩, ⟨[]⟩, .ioError⟩
          ⟨⟨1, 0⟩, ⟨[]⟩, .ok [7]⟩).1 = .result (.error .cmpFail) ∧
     ((FileContent.compare (fun l => l) false ⟨⟨1, 0⟩, ⟨[]⟩, .ok [7]⟩
           ⟨⟨1, 0⟩, ⟨[]⟩, .ioError⟩).1 = .result (.error .cmpFail) ∧
      FileContent.cmp (fun l => l) false ⟨⟨1, 0⟩, ⟨[]⟩, .ioError⟩
          ⟨⟨1, 0⟩, ⟨[]⟩, .ok [7]⟩ = some .gt ∧
      FileContent.cmp (fun l => l) false ⟨⟨1, 0⟩, ⟨[]⟩, .ok [7]⟩
          ⟨⟨1, 0⟩, ⟨[]⟩, .ioError⟩ = some .gt)) :=
  ⟨⟨rfl, (c5_amended_antisymmetry (fun l => l) false ⟨⟨1, 0⟩, ⟨[]⟩, .ok [7]⟩
       ⟨⟨1, 0⟩, ⟨[]⟩, .ok [8]⟩).1 .lt rfl⟩,
   ⟨rfl, (c5_amended_antisymmetry (fun l => l) false ⟨⟨1, 0⟩, ⟨[]⟩, .ioError⟩
       ⟨⟨1, 0⟩, ⟨[]⟩, .ok [7]⟩).2 .cmpFail rfl⟩⟩
